import Mathlib

/-!
Shallow embedding of the batch inference client in
`src/yomitoku_client/client.py` (YomitokuClient): circuit breaker,
retrying invoker, per-call/total timeout computation and result merging,
together with proofs about the spec's claims.

Times are modelled in milliseconds as integers (the code uses
`now_ms() = int(time.time()*1000)`); durations configured in seconds are
multiplied by 1000 where the code does so.  Timeout durations handed to
`asyncio` are modelled as rationals (the code uses Python floats, but every
constant involved — `+ 5`, `* 1.5`, `0.01`, `0.2`, powers of two — is
exactly representable, so rational arithmetic agrees with the code on the
values the claims are about).
-/

/-- Errors raised by the client code paths that the claims talk about.
`circuitOpen` is `CircuitOpenError`, `invokeError` is the
`YomiTokuInvokeError` raised after the retry loop with the page index and
last underlying error, `requestTimeout` is the `YomiTokuInvokeError`
raised by `_ainvoke_one` on a per-call timeout, `noResults` is the
`YomiTokuInvokeError("No page results were returned.")`, `zeroDivision`
models Python's `ZeroDivisionError`, and `indexError` models Python's
`IndexError` (from `results[0]` on an empty list). -/
inductive PyErr where
  | circuitOpen
  | invokeError (page : Nat) (lastErr : Option String)
  | requestTimeout (page : Nat)
  | noResults
  | zeroDivision
  | indexError
deriving DecidableEq, Repr

/-- Configuration of `YomitokuClient.__init__` (the fields the claims
need).  `max_attempts` is stored by the constructor; note the retry loop
in `_invoke_one` does NOT read it (it uses the literal `5`). -/
structure ClientCfg where
  max_attempts : Nat
  backoff_base : Rat
  circuit_threshold : Nat
  circuit_cooldown_sec : Int
  read_timeout : Rat
  max_workers : Nat
deriving DecidableEq, Repr

/-- Circuit-breaker state: `self._circuit_failures` and
`self._circuit_open_until` (milliseconds). -/
structure Circuit where
  failures : Nat
  openUntil : Int
deriving DecidableEq, Repr

/-- Model of `_record_success`: resets the failure counter. -/
def record_success (c : Circuit) : Circuit :=
  { c with failures := 0 }

/-- Model of `_record_failure`: increments the counter; when it reaches
`circuit_threshold`, sets `openUntil = now + cooldown*1000` and resets the
counter to 0.  `now` is the value of `now_ms()` at the call. -/
def record_failure (cfg : ClientCfg) (c : Circuit) (now : Int) : Circuit :=
  let f := c.failures + 1
  if f ≥ cfg.circuit_threshold then
    { failures := 0, openUntil := now + cfg.circuit_cooldown_sec * 1000 }
  else
    { c with failures := f }

/-- Model of `_check_circuit`: raises `CircuitOpenError` iff `now < openUntil`. -/
def check_circuit (c : Circuit) (now : Int) : Except PyErr Unit :=
  if now < c.openUntil then .error .circuitOpen else .ok ()

/-! ### JSON payloads, heap of list objects, and result merging

A decoded response dict maps string keys to values; the only structure the
merger inspects is whether the value under `"result"` is a list.  Python
lists are mutable objects shared by reference, and `_merge_results`
extends the first result's list in place, so lists are modelled as
addresses into an explicit heap of list contents. -/

/-- A Python value as seen by the merger: either a reference to a list
object living in the heap, or any non-list value (opaque). -/
inductive PVal where
  | listRef (addr : Nat)
  | atom (s : String)
deriving DecidableEq, Repr

/-- A decoded response dict (association list, unique keys by JSON
decoding; only lookup is needed). -/
abbrev PDict := List (String × PVal)

/-- Lookup `d.get(k)` / `d[k]`: first binding of the key, if any. -/
def dget (d : PDict) (k : String) : Option PVal :=
  (d.find? (fun p => p.1 = k)).map (·.2)

/-- Heap of list objects: address `a` holds the list `h.getD a []`. -/
abbrev Heap := List (List PVal)

/-- Contents of the list object at address `a`. -/
def hget (h : Heap) (a : Nat) : List PVal :=
  h.getD a []

/-- Model of `list.extend`: appends `xs` to the list object at address `a`,
in place. -/
def hextend (h : Heap) (a : Nat) (xs : List PVal) : Heap :=
  h.set a (hget h a ++ xs)

/-- Model of `InvokeResult`: page index plus the decoded SageMaker JSON dict. -/
structure InvokeResult where
  index : Nat
  raw_dict : PDict
deriving DecidableEq, Repr

/-- The hardcoded merge key `"result"` of `_merge_results`. -/
def resultKey : String := "result"

/-- Body of the merge loop of `_merge_results` for one subsequent result
`r`: `items = r.raw_dict.get("result", [])`; if `items` is a list,
`base["result"].extend(items)` — extend the base's list object at address
`a` — otherwise do nothing. -/
def merge_step (a : Nat) (hh : Heap) (r : InvokeResult) : Heap :=
  match dget r.raw_dict resultKey with
  | some (.listRef a2) => hextend hh a (hget hh a2)
  | _ => hh

/-- Model of `_merge_results`: `base = dict(results[0].raw_dict)` (a shallow copy,
sharing the list objects); if `base.get("result")` is not a list, return
`base` unchanged; otherwise for each subsequent result run `merge_step`
on the base's list object.  `results[0]` on an empty list raises
`IndexError`. -/
def merge_results (h : Heap) (results : List InvokeResult) :
    Except PyErr (Heap × PDict) :=
  match results with
  | [] => .error .indexError
  | r0 :: rest =>
    let base := r0.raw_dict
    match dget base resultKey with
    | some (.listRef a) => .ok (rest.foldl (merge_step a) h, base)
    | _ => .ok (h, base)

/-- The sort key of `results.sort(key=lambda r: r.index)`: compare results
by page index. -/
def idxLe (x y : InvokeResult) : Prop := x.index ≤ y.index

instance : DecidableRel idxLe := fun x y => Nat.decLe x.index y.index

instance : IsTotal InvokeResult idxLe := ⟨fun x y => Nat.le_total x.index y.index⟩

instance : IsTrans InvokeResult idxLe := ⟨fun _ _ _ h1 h2 => Nat.le_trans h1 h2⟩

/-- Model of `results.sort(key=lambda r: r.index)` — stable ascending sort
by page index (lines 312–313 of `client.py`), as insertion sort. -/
def sortByIndex (rs : List InvokeResult) : List InvokeResult :=
  List.insertionSort idxLe rs

/-- Lines 313–314 of `analyze_async`: sort the gathered results by page
index, then merge them. -/
def sort_and_merge (h : Heap) (rs : List InvokeResult) :
    Except PyErr (Heap × PDict) :=
  merge_results h (sortByIndex rs)

/-- Items a result contributes to the merge:
`r.raw_dict.get("result", [])` when that value is a list, else nothing. -/
def pageItems (h : Heap) (r : InvokeResult) : List PVal :=
  match dget r.raw_dict resultKey with
  | some (.listRef a) => hget h a
  | _ => []

/-- Whether a result's `"result"` field is a list (the `isinstance(items,
list)` test of the merge loop). -/
def hasListResult (r : InvokeResult) : Bool :=
  match dget r.raw_dict resultKey with
  | some (.listRef _) => true
  | _ => false




deriving instance DecidableEq for Except

/-! ### Retrying invoker (`_invoke_one`, `client.py` lines 202–232)

The loop body is parametrised by an environment giving, for each attempt
number, the clock readings and the outcome of the remote call on that
attempt (success with a decoded dict, or any of the caught exceptions).
The loop condition in the source is literally `while attempt < 5`; the
loop is embedded by structural recursion on the number `5 - attempt` of
iterations still allowed, carrying the `attempt` counter alongside (the
invariant `fuel + attempt = 5` makes `fuel = 0` exactly the loop's exit
condition `¬ attempt < 5`), so that the definition computes by `rfl`. -/

/-- Outcome of one remote `invoke_endpoint` + decode on a given attempt:
either a decoded JSON dict, or an exception (`ClientError`,
`BotoCoreError`, `json.JSONDecodeError`, or any other `Exception`),
carried as its message. -/
inductive CallOutcome where
  | success (data : PDict)
  | failure (msg : String)
deriving DecidableEq, Repr

/-- Environment of one loop iteration: the value of `now_ms()` at the
`_check_circuit()` call, the value of `now_ms()` inside `_record_failure`
(used only if this attempt fails and opens the circuit), and the remote
call's outcome (consulted only if the circuit check passes). -/
structure AttemptEnv where
  nowAtCheck : Int
  nowAtFailure : Int
  outcome : CallOutcome
deriving DecidableEq, Repr

/-- The sleep `min(delay, 3.0)` where
`delay = backoff_base * (2**attempt) + 0.01 * (attempt + 1)`
(lines 229–230). -/
def backoff_delay (b : Rat) (attempt : Nat) : Rat :=
  min (b * 2 ^ attempt + (1 / 100) * (attempt + 1)) 3

/-- Observable trace of one `_invoke_one` call: how many remote calls were
performed, the sleeps executed between attempts (in order), the circuit
state when the function returns or raises, and the result (`.ok` with the
`InvokeResult`, or the raised error). -/
structure InvokeTrace where
  calls : Nat
  sleeps : List Rat
  circuit : Circuit
  result : Except PyErr InvokeResult
deriving DecidableEq, Repr

/-- One `while attempt < 5` loop of `_invoke_one`, with `fuel = 5 - attempt`
iterations still allowed, from circuit state `c` and last recorded error
`lastErr`.  Each iteration: `_check_circuit()` — whose `CircuitOpenError`
is raised OUTSIDE the `try`, so it propagates out of the loop at once;
then the remote call; on success `_record_success()` and return an
`InvokeResult`; on failure `_record_failure()`, sleep
`min(backoff_base * 2^attempt + 0.01*(attempt+1), 3.0)`, increment
`attempt` and continue.  When the loop exits, raise `YomiTokuInvokeError`
carrying the page index and the last error. -/
def invoke_loop (cfg : ClientCfg) (idx : Nat) (env : Nat → AttemptEnv) :
    Nat → Nat → Circuit → Option String → InvokeTrace
  | 0, _, c, lastErr =>
    { calls := 0, sleeps := [], circuit := c,
      result := .error (.invokeError idx lastErr) }
  | fuel + 1, attempt, c, _lastErr =>
    let e := env attempt
    if e.nowAtCheck < c.openUntil then
      { calls := 0, sleeps := [], circuit := c, result := .error .circuitOpen }
    else
      match e.outcome with
      | .success data =>
        { calls := 1, sleeps := [], circuit := record_success c,
          result := .ok ⟨idx, data⟩ }
      | .failure msg =>
        let c' := record_failure cfg c e.nowAtFailure
        let s := backoff_delay cfg.backoff_base attempt
        let t := invoke_loop cfg idx env fuel (attempt + 1) c' (some msg)
        { calls := t.calls + 1, sleeps := s :: t.sleeps,
          circuit := t.circuit, result := t.result }

/-- Model of `_invoke_one(payload)`: runs the loop from `attempt = 0` (so 5
iterations allowed), `last_err = None`, on the client's current circuit
state. -/
def invoke_one (cfg : ClientCfg) (idx : Nat) (env : Nat → AttemptEnv)
    (c : Circuit) : InvokeTrace :=
  invoke_loop cfg idx env 5 0 c none

/-! ### Per-call timeout wrapper (`_ainvoke_one`, lines 234–248) -/

/-- The per-call timeout of `_ainvoke_one`:
`request_timeout if request_timeout is not None else read_timeout + 5`. -/
def per_call_timeout (read_timeout : Rat) (request_timeout : Option Rat) : Rat :=
  request_timeout.getD (read_timeout + 5)

/-- What `await asyncio.wait_for(fut, timeout)` observes for the executor
future running `_invoke_one`: either the future settles within the
timeout (with the invoke trace), or the per-call timeout fires first. -/
inductive AwaitOutcome where
  | completed (t : InvokeTrace)
  | timedOut
deriving DecidableEq, Repr

/-- Model of `_ainvoke_one`: awaits the `_invoke_one` future under the per-call
timeout.  On `asyncio.TimeoutError` it calls `_record_failure()` (with
`now_ms() = now`) on the circuit state `c` current at that moment and
raises `YomiTokuInvokeError` for the page; otherwise it just propagates
the future's outcome.  Returns the resulting circuit state and result. -/
def ainvoke_one (cfg : ClientCfg) (idx : Nat) (c : Circuit) (now : Int)
    (o : AwaitOutcome) : Circuit × Except PyErr InvokeResult :=
  match o with
  | .completed t => (t.circuit, t.result)
  | .timedOut => (record_failure cfg c now, .error (.requestTimeout idx))

/-! ### Total-timeout computation and the post-gather steps of
`analyze_async` (lines 263–269 and 309–314) -/

/-- Lines 264–269: the default total timeout when `total_timeout` is not
supplied.  `par = min(len(page_index), max(1, max_workers))`;
`base = (request_timeout if request_timeout is not None else read_timeout) + 5`;
`total_timeout = base * math.ceil(len(page_index) / par) * 1.5`.
When `par = 0` (no pages selected) the division `len/par` raises
`ZeroDivisionError` in Python, modelled as `.error .zeroDivision`; for
`par > 0`, `math.ceil` of the nonnegative integer quotient is the
ceiling division `(pageCount + par - 1) / par` on `Nat`. -/
def default_total_timeout (read_timeout : Rat) (request_timeout : Option Rat)
    (pageCount maxWorkers : Nat) : Except PyErr Rat :=
  let par := min pageCount (max 1 maxWorkers)
  if par = 0 then .error .zeroDivision
  else
    let base := request_timeout.getD read_timeout + 5
    .ok (base * (((pageCount + par - 1) / par : Nat) : Rat) * (3 / 2))

/-- Modelled from the claim's formula (for comparison with
`default_total_timeout`): `perCallTimeout * ceil(pageCount /
concurrencyLimit) * 1.5` with `concurrencyLimit = min(pageCount,
maxWorkers)` and `perCallTimeout` the per-call timeout in effect for the
batch; the ceiling is again ceiling division on `Nat`. -/
def claimed_total_timeout (read_timeout : Rat) (request_timeout : Option Rat)
    (pageCount maxWorkers : Nat) : Rat :=
  let cl := min pageCount maxWorkers
  per_call_timeout read_timeout request_timeout *
    (((pageCount + cl - 1) / cl : Nat) : Rat) * (3 / 2)

/-- The phases of `analyze_async` around a successful gather that the
empty-batch claim is about, in source order: first the total-timeout
computation (lines 263–269, which can raise `ZeroDivisionError` for an
empty page selection), then the gathered per-page results (one per
selected page), then the `if not results` guard (lines 309–310) raising
`YomiTokuInvokeError("No page results were returned.")`, then sorting and
merging (lines 312–314). -/
def analyze_collect (h : Heap) (read_timeout : Rat) (maxWorkers : Nat)
    (request_timeout total_timeout : Option Rat)
    (results : List InvokeResult) : Except PyErr (Heap × PDict) := do
  let _ ← match total_timeout with
    | some t => Except.ok t
    | none =>
      default_total_timeout read_timeout request_timeout results.length maxWorkers
  if results.isEmpty then .error .noResults
  else sort_and_merge h results







/-! ## Lemmas and claim theorems -/

theorem record_failure_of_below (cfg : ClientCfg) (c : Circuit) (now : Int)
    (h : c.failures + 1 < cfg.circuit_threshold) :
    record_failure cfg c now = { c with failures := c.failures + 1 } := by
  simp only [record_failure, ge_iff_le]
  rw [if_neg (by omega)]

theorem record_failure_opens (cfg : ClientCfg) (c : Circuit) (now : Int)
    (h : cfg.circuit_threshold ≤ c.failures + 1) :
    record_failure cfg c now
      = ⟨0, now + cfg.circuit_cooldown_sec * 1000⟩ := by
  simp only [record_failure, ge_iff_le]
  rw [if_pos (by omega)]

theorem foldl_record_failure (cfg : ClientCfg) (u tl : Int) :
    ∀ (ts : List Int) (k : Nat),
      k + ts.length + 1 = cfg.circuit_threshold →
      (ts ++ [tl]).foldl (fun c t => record_failure cfg c t) ⟨k, u⟩
        = ⟨0, tl + cfg.circuit_cooldown_sec * 1000⟩ := by
  intro ts
  induction ts with
  | nil =>
    intro k hk
    simp only [List.nil_append, List.foldl_cons, List.foldl_nil]
    refine record_failure_opens cfg ⟨k, u⟩ tl ?_
    show cfg.circuit_threshold ≤ k + 1
    simp only [List.length_nil] at hk
    omega
  | cons t ts ih =>
    intro k hk
    simp only [List.cons_append, List.foldl_cons]
    rw [record_failure_of_below cfg ⟨k, u⟩ t
      (by show k + 1 < cfg.circuit_threshold
          simp only [List.length_cons] at hk
          omega)]
    exact ih (k + 1) (by simp only [List.length_cons] at hk; omega)

/-- C4: after exactly `circuit_threshold` consecutive `_record_failure`
calls — at times `ts ++ [tl]` (milliseconds), the last at `tl`, with no
intervening `_record_success` — starting from a zero failure counter, the
circuit opens: the counter is reset to 0 and `openUntil` is set to
`tl + circuit_cooldown_sec * 1000` (i.e. now plus the cooldown in
seconds), and `_check_circuit` raises `CircuitOpenError` at every instant
strictly before `openUntil` and returns normally at every instant at or
after it. -/
theorem circuit_opens_after_threshold (cfg : ClientCfg) (u tl : Int)
    (ts : List Int) (hlen : ts.length + 1 = cfg.circuit_threshold) :
    (ts ++ [tl]).foldl (fun c t => record_failure cfg c t) ⟨0, u⟩
        = ⟨0, tl + cfg.circuit_cooldown_sec * 1000⟩ ∧
    ∀ now : Int,
      check_circuit
          ((ts ++ [tl]).foldl (fun c t => record_failure cfg c t) ⟨0, u⟩) now
        = if now < tl + cfg.circuit_cooldown_sec * 1000
          then .error .circuitOpen else .ok () := by
  have hfold := foldl_record_failure cfg u tl ts 0 (by omega)
  exact ⟨hfold, fun now => by rw [hfold]; rfl⟩

/-- Witness for C4 at a concrete input: threshold 2, cooldown 30 s,
failures recorded at 10 ms and 20 ms; the circuit is open at 30019 ms and
closed again at 30020 ms. -/
theorem circuit_opens_after_threshold_witness :
    ([10] : List Int).length + 1 = (ClientCfg.mk 5 1 2 30 60 4).circuit_threshold ∧
    check_circuit ((([10] : List Int) ++ [20]).foldl
        (fun c t => record_failure (ClientCfg.mk 5 1 2 30 60 4) c t) ⟨0, 0⟩) 30019
      = .error .circuitOpen ∧
    check_circuit ((([10] : List Int) ++ [20]).foldl
        (fun c t => record_failure (ClientCfg.mk 5 1 2 30 60 4) c t) ⟨0, 0⟩) 30020
      = .ok () := by
  have h := circuit_opens_after_threshold (ClientCfg.mk 5 1 2 30 60 4) 0 20 [10]
    (by decide)
  refine ⟨by decide, ?_, ?_⟩
  · rw [h.2 30019]; decide
  · rw [h.2 30020]; decide

theorem invoke_loop_circuit_open (cfg : ClientCfg) (idx : Nat)
    (env : Nat → AttemptEnv) (fuel attempt : Nat) (c : Circuit)
    (lastErr : Option String) (hfuel : fuel ≠ 0)
    (hopen : (env attempt).nowAtCheck < c.openUntil) :
    invoke_loop cfg idx env fuel attempt c lastErr
      = ⟨0, [], c, .error .circuitOpen⟩ := by
  cases fuel with
  | zero => exact absurd rfl hfuel
  | succ n => simp [invoke_loop, hopen]

theorem invoke_loop_all_fail (cfg : ClientCfg) (idx : Nat)
    (env : Nat → AttemptEnv) (msgs : Nat → String) :
    ∀ (fuel attempt : Nat) (c : Circuit) (lastErr : Option String),
      fuel + attempt = 5 →
      (∀ a, attempt ≤ a → a < 5 → (env a).outcome = .failure (msgs a)) →
      (∀ a, attempt ≤ a → a < 5 → ¬ (env a).nowAtCheck < c.openUntil) →
      c.failures + fuel ≤ cfg.circuit_threshold →
      (invoke_loop cfg idx env fuel attempt c lastErr).calls = fuel ∧
      (invoke_loop cfg idx env fuel attempt c lastErr).sleeps
        = (List.range' attempt fuel).map (backoff_delay cfg.backoff_base) ∧
      (invoke_loop cfg idx env fuel attempt c lastErr).result
        = .error (.invokeError idx
            (if fuel = 0 then lastErr else some (msgs 4))) := by
  intro fuel
  induction fuel with
  | zero =>
    intro attempt c lastErr _ _ _ _
    simp [invoke_loop, List.range']
  | succ n ih =>
    intro attempt c lastErr hsum hfail hclosed hth
    have hlt : attempt < 5 := by omega
    have hcheck := hclosed attempt (Nat.le_refl _) hlt
    have hout := hfail attempt (Nat.le_refl _) hlt
    simp only [invoke_loop, if_neg hcheck, hout]
    have hopen' : (record_failure cfg c (env attempt).nowAtFailure).openUntil
        = c.openUntil ∨ n = 0 := by
      by_cases hn : n = 0
      · exact Or.inr hn
      · left
        rw [record_failure_of_below cfg c _ (by omega)]
    have hth' : (record_failure cfg c (env attempt).nowAtFailure).failures + n
        ≤ cfg.circuit_threshold := by
      simp only [record_failure, ge_iff_le]
      split
      · simp; omega
      · simp; omega
    have hclosed' : ∀ a, attempt + 1 ≤ a → a < 5 →
        ¬ (env a).nowAtCheck
            < (record_failure cfg c (env attempt).nowAtFailure).openUntil := by
      intro a ha1 ha2
      have hn : n ≠ 0 := by omega
      rcases hopen' with h | h
      · rw [h]; exact hclosed a (by omega) ha2
      · exact absurd h hn
    have h := ih (attempt + 1) (record_failure cfg c (env attempt).nowAtFailure)
      (some (msgs attempt)) (by omega) (fun a ha1 ha2 => hfail a (by omega) ha2)
      hclosed' hth'
    refine ⟨by simp [h.1], ?_, ?_⟩
    · rw [List.range'_succ]
      simp only [List.map_cons]
      rw [h.2.1.symm]
    · rw [h.2.2]
      by_cases hn : n = 0
      · subst hn
        have : attempt = 4 := by omega
        subst this
        simp
      · simp [hn]

/-- C1 counterexample: with the circuit open at the start of the first
attempt (`now = 50 < openUntil = 100`), `_invoke_one` raises
`CircuitOpenError` out of the loop at once — no remote call, no sleep, no
further attempt — contradicting the claim that the open circuit counts as
the attempt's failure path and that the loop sleeps and proceeds. -/
theorem invoke_circuit_open_cex :
    (invoke_one (ClientCfg.mk 5 1 5 30 60 4) 7
        (fun _ => ⟨50, 60, .failure "e"⟩) ⟨0, 100⟩).result
      = .error .circuitOpen ∧
    (invoke_one (ClientCfg.mk 5 1 5 30 60 4) 7
        (fun _ => ⟨50, 60, .failure "e"⟩) ⟨0, 100⟩).sleeps = [] ∧
    (invoke_one (ClientCfg.mk 5 1 5 30 60 4) 7
        (fun _ => ⟨50, 60, .failure "e"⟩) ⟨0, 100⟩).calls = 0 := by
  refine ⟨rfl, rfl, rfl⟩

/-- C1 (amended): whenever the loop of `_invoke_one` arrives at an attempt
(`fuel ≠ 0` iterations remaining, i.e. `attempt < 5`) with the circuit
open at the `_check_circuit()` call, the call raises `CircuitOpenError`
immediately out of the loop — the check sits outside the `try`, so the
open circuit aborts the call, performing no remote call, no sleep and no
further attempts, and leaving the circuit state unchanged. -/
theorem invoke_circuit_open_aborts (cfg : ClientCfg) (idx : Nat)
    (env : Nat → AttemptEnv) (fuel attempt : Nat) (c : Circuit)
    (lastErr : Option String) (hfuel : fuel ≠ 0)
    (hopen : (env attempt).nowAtCheck < c.openUntil) :
    invoke_loop cfg idx env fuel attempt c lastErr
      = ⟨0, [], c, .error .circuitOpen⟩ :=
  invoke_loop_circuit_open cfg idx env fuel attempt c lastErr hfuel hopen

/-- Witness for the amended C1 at a concrete input (third attempt, circuit
open until 100 ms, check at 50 ms). -/
theorem invoke_circuit_open_aborts_witness :
    ((3 : Nat) ≠ 0 ∧ (50 : Int) < 100) ∧
    invoke_loop (ClientCfg.mk 5 1 5 30 60 4) 7
        (fun _ => ⟨50, 60, .failure "e"⟩) 3 2 ⟨1, 100⟩ (some "x")
      = ⟨0, [], ⟨1, 100⟩, .error .circuitOpen⟩ :=
  ⟨⟨by decide, by decide⟩,
    invoke_circuit_open_aborts (ClientCfg.mk 5 1 5 30 60 4) 7
      (fun _ => ⟨50, 60, .failure "e"⟩) 3 2 ⟨1, 100⟩ (some "x")
      (by decide) (by decide)⟩

/-- C2 counterexample: with `max_attempts = 3` configured (and a circuit
threshold of 100 so the breaker never interferes) and a call that always
fails, `_invoke_one` performs 5 remote calls, not `max_attempts = 3`:
the loop bound is the literal `5`, not the configured value. -/
theorem invoke_max_attempts_cex :
    (invoke_one (ClientCfg.mk 3 1 100 30 60 4) 2
        (fun _ => ⟨0, 0, .failure "e"⟩) ⟨0, 0⟩).calls = 5 ∧
    (ClientCfg.mk 3 1 100 30 60 4).max_attempts = 3 ∧ (5 : Nat) ≠ 3 := by
  refine ⟨rfl, rfl, by decide⟩

/-- C2 (amended): for every configuration, when every attempt's remote
call fails and the circuit is never open at an attempt's check (which
holds e.g. whenever `failures + 5 ≤ circuit_threshold` at entry and the
circuit was closed), `_invoke_one` performs exactly 5 remote calls — the
literal loop bound, independent of the configured `max_attempts` — and
then raises `YomiTokuInvokeError` carrying the page index and the last
underlying error. -/
theorem invoke_exhausts_five_attempts (cfg : ClientCfg) (idx : Nat)
    (env : Nat → AttemptEnv) (msgs : Nat → String) (c : Circuit)
    (hfail : ∀ a, a < 5 → (env a).outcome = .failure (msgs a))
    (hclosed : ∀ a, a < 5 → ¬ (env a).nowAtCheck < c.openUntil)
    (hth : c.failures + 5 ≤ cfg.circuit_threshold) :
    (invoke_one cfg idx env c).calls = 5 ∧
    (invoke_one cfg idx env c).result
      = .error (.invokeError idx (some (msgs 4))) := by
  have h := invoke_loop_all_fail cfg idx env msgs 5 0 c none (by omega)
    (fun a _ ha => hfail a ha) (fun a _ ha => hclosed a ha) hth
  refine ⟨h.1, ?_⟩
  show (invoke_loop cfg idx env 5 0 c none).result = _
  rw [h.2.2]
  rfl

/-- Witness for the amended C2 at a concrete input: `max_attempts = 3`,
threshold 100, every call failing with message "e". -/
theorem invoke_exhausts_five_attempts_witness :
    ((∀ a, a < 5 →
        ((fun _ => AttemptEnv.mk 0 0 (.failure "e")) a).outcome
          = .failure ((fun _ => "e") a)) ∧
      (∀ a, a < 5 →
        ¬ ((fun _ => AttemptEnv.mk 0 0 (.failure "e")) a).nowAtCheck
            < (Circuit.mk 0 0).openUntil) ∧
      (Circuit.mk 0 0).failures + 5
        ≤ (ClientCfg.mk 3 1 100 30 60 4).circuit_threshold) ∧
    (invoke_one (ClientCfg.mk 3 1 100 30 60 4) 2
        (fun _ => AttemptEnv.mk 0 0 (.failure "e")) ⟨0, 0⟩).calls = 5 ∧
    (invoke_one (ClientCfg.mk 3 1 100 30 60 4) 2
        (fun _ => AttemptEnv.mk 0 0 (.failure "e")) ⟨0, 0⟩).result
      = .error (.invokeError 2 (some "e")) :=
  ⟨⟨fun _ _ => rfl, fun _ _ => lt_irrefl 0, by decide⟩,
    invoke_exhausts_five_attempts (ClientCfg.mk 3 1 100 30 60 4) 2
      (fun _ => AttemptEnv.mk 0 0 (.failure "e")) (fun _ => "e") ⟨0, 0⟩
      (fun _ _ => rfl) (fun _ _ => lt_irrefl 0) (by decide)⟩

theorem invoke_loop_sleeps_shape (cfg : ClientCfg) (idx : Nat)
    (env : Nat → AttemptEnv) :
    ∀ (fuel attempt : Nat) (c : Circuit) (lastErr : Option String),
      (invoke_loop cfg idx env fuel attempt c lastErr).sleeps
        = (List.range' attempt
            (invoke_loop cfg idx env fuel attempt c lastErr).sleeps.length).map
            (backoff_delay cfg.backoff_base) := by
  intro fuel
  induction fuel with
  | zero => intro attempt c lastErr; simp [invoke_loop]
  | succ n ih =>
    intro attempt c lastErr
    by_cases hop : (env attempt).nowAtCheck < c.openUntil
    · simp [invoke_loop, hop]
    · cases hout : (env attempt).outcome with
      | success d => simp [invoke_loop, hop, hout]
      | failure m =>
        simp only [invoke_loop, if_neg hop, hout, List.length_cons]
        rw [List.range'_succ]
        simp only [List.map_cons, List.cons.injEq]
        exact ⟨trivial, ih (attempt + 1) _ (some m)⟩

theorem backoff_delay_mono (b : Rat) (hb : 0 ≤ b) (a : Nat) :
    backoff_delay b a ≤ backoff_delay b (a + 1) := by
  unfold backoff_delay
  refine min_le_min ?_ le_rfl
  have h2 : (2 : Rat) ^ a ≤ 2 ^ (a + 1) :=
    pow_le_pow_right₀ (by norm_num) (Nat.le_succ a)
  have hmul : b * 2 ^ a ≤ b * 2 ^ (a + 1) :=
    mul_le_mul_of_nonneg_left h2 hb
  have hj : (1 / 100 : Rat) * ((a : Rat) + 1)
      ≤ (1 / 100 : Rat) * (((a : Nat) + 1 : Nat) + 1) := by
    push_cast
    nlinarith [Nat.cast_nonneg (α := Rat) a]
  calc b * 2 ^ a + 1 / 100 * ((a : Rat) + 1)
      ≤ b * 2 ^ (a + 1) + 1 / 100 * (((a : Nat) + 1 : Nat) + 1) :=
        add_le_add hmul hj
    _ = b * 2 ^ (a + 1) + 1 / 100 * (((a + 1 : Nat) : Rat) + 1) := by push_cast; ring

theorem backoff_delay_le_three (b : Rat) (a : Nat) : backoff_delay b a ≤ 3 :=
  min_le_right _ _

theorem chain_le_map_range' (f : Nat → Rat) (hf : ∀ a, f a ≤ f (a + 1)) :
    ∀ (n s : Nat), List.Chain' (· ≤ ·) ((List.range' s n).map f) := by
  intro n
  induction n with
  | zero => intro s; simp
  | succ m ih =>
    intro s
    rw [List.range'_succ]
    cases m with
    | zero => simp
    | succ k =>
      rw [List.range'_succ]
      simp only [List.map_cons]
      rw [List.chain'_cons]
      refine ⟨hf s, ?_⟩
      have h := ih (s + 1)
      rw [List.range'_succ] at h
      simpa using h

/-- C6: in every `_invoke_one` run, the `i`-th sleep (performed after the
`i`-th, 0-based, failing attempt) equals
`min(backoff_base * 2^i + 0.01 * (i + 1), 3.0)`, and — for every
non-negative `backoff_base` — the sleep durations are non-decreasing
across attempts and never exceed 3.0 seconds. -/
theorem backoff_sleep_values (cfg : ClientCfg) (idx : Nat)
    (env : Nat → AttemptEnv) (c : Circuit) (hb : 0 ≤ cfg.backoff_base) :
    (invoke_one cfg idx env c).sleeps
      = (List.range (invoke_one cfg idx env c).sleeps.length).map
          (backoff_delay cfg.backoff_base) ∧
    List.Chain' (· ≤ ·) (invoke_one cfg idx env c).sleeps ∧
    ∀ s ∈ (invoke_one cfg idx env c).sleeps, s ≤ 3 := by
  have hshape := invoke_loop_sleeps_shape cfg idx env 5 0 c none
  refine ⟨by rw [List.range_eq_range']; exact hshape, ?_, ?_⟩
  · show List.Chain' (· ≤ ·) (invoke_loop cfg idx env 5 0 c none).sleeps
    rw [hshape]
    exact chain_le_map_range' _ (backoff_delay_mono cfg.backoff_base hb) _ 0
  · show ∀ s ∈ (invoke_loop cfg idx env 5 0 c none).sleeps, s ≤ 3
    rw [hshape]
    intro s hs
    rcases List.mem_map.mp hs with ⟨a, _, rfl⟩
    exact backoff_delay_le_three _ a

/-- Witness for C6 at a concrete input: `backoff_base = 1`, every call
failing. -/
theorem backoff_sleep_values_witness :
    (0 : Rat) ≤ (ClientCfg.mk 5 1 5 30 60 4).backoff_base ∧
    ((invoke_one (ClientCfg.mk 5 1 5 30 60 4) 0
        (fun _ => ⟨0, 0, .failure "e"⟩) ⟨0, 0⟩).sleeps
      = (List.range (invoke_one (ClientCfg.mk 5 1 5 30 60 4) 0
          (fun _ => ⟨0, 0, .failure "e"⟩) ⟨0, 0⟩).sleeps.length).map
            (backoff_delay (ClientCfg.mk 5 1 5 30 60 4).backoff_base) ∧
    List.Chain' (· ≤ ·) (invoke_one (ClientCfg.mk 5 1 5 30 60 4) 0
        (fun _ => ⟨0, 0, .failure "e"⟩) ⟨0, 0⟩).sleeps ∧
    ∀ s ∈ (invoke_one (ClientCfg.mk 5 1 5 30 60 4) 0
        (fun _ => ⟨0, 0, .failure "e"⟩) ⟨0, 0⟩).sleeps, s ≤ 3) :=
  ⟨zero_le_one,
    backoff_sleep_values (ClientCfg.mk 5 1 5 30 60 4) 0
      (fun _ => ⟨0, 0, .failure "e"⟩) ⟨0, 0⟩ zero_le_one⟩

/-- C3 counterexample: when the per-call timeout fires, `_ainvoke_one`
raises `YomiTokuInvokeError` for the page immediately — the page's
processing does not continue with further retries (the timeout wraps the
page's entire retry loop), contradicting the claim that the timeout is
one retryable attempt failure after which the page's retry loop
continues. -/
theorem percall_timeout_cex :
    (ainvoke_one (ClientCfg.mk 5 1 5 30 60 4) 3 ⟨0, 0⟩ 1000 .timedOut).2
      = .error (.requestTimeout 3) ∧
    (ainvoke_one (ClientCfg.mk 5 1 5 30 60 4) 3 ⟨0, 0⟩ 1000 .timedOut).1
      = record_failure (ClientCfg.mk 5 1 5 30 60 4) ⟨0, 0⟩ 1000 :=
  ⟨rfl, rfl⟩

/-- C3 (amended): exceeding the per-call timeout (`per_call_timeout`,
default `read_timeout + 5`) is observed by the circuit breaker via
`_record_failure`, but it is not a retryable per-attempt failure: the
timeout wraps the page's entire `_invoke_one` retry loop, and
`_ainvoke_one` immediately raises `YomiTokuInvokeError` for the page,
aborting it (and, by the batch's fail-fast policy, the batch); when the
future completes in time, `_ainvoke_one` just propagates its outcome. -/
theorem percall_timeout_records_and_aborts (cfg : ClientCfg) (idx : Nat)
    (c : Circuit) (now : Int) :
    ainvoke_one cfg idx c now .timedOut
      = (record_failure cfg c now, .error (.requestTimeout idx)) ∧
    (∀ t : InvokeTrace,
      ainvoke_one cfg idx c now (.completed t) = (t.circuit, t.result)) ∧
    per_call_timeout cfg.read_timeout none = cfg.read_timeout + 5 :=
  ⟨rfl, fun _ => rfl, rfl⟩

/-- C7 counterexample: with `request_timeout = 10` supplied,
`read_timeout = 60`, one page and four workers, the per-call timeout is
10, so the claim's formula gives `10 * 1 * 1.5 = 15`; the code computes
`(10 + 5) * 1 * 1.5 = 22.5`. -/
theorem default_total_timeout_cex :
    default_total_timeout 60 (some 10) 1 4 = .ok (45 / 2) ∧
    claimed_total_timeout 60 (some 10) 1 4 = 15 ∧
    per_call_timeout 60 (some 10) = 10 ∧
    (45 / 2 : Rat) ≠ 15 := by
  refine ⟨?_, ?_, rfl, by norm_num⟩
  · norm_num [default_total_timeout]
  · norm_num [claimed_total_timeout, per_call_timeout]

/-- C7 (amended): when `total_timeout` is not supplied, the code uses
`((request_timeout if supplied else read_timeout) + 5) *
ceil(pageCount / min(pageCount, max(1, maxWorkers))) * 1.5`.  When
`request_timeout` is not supplied this base equals the per-call timeout
`read_timeout + 5`, so the claim's formula holds; when `request_timeout`
is supplied the base is `request_timeout + 5`, not the per-call timeout
`request_timeout`. -/
theorem default_total_timeout_formula (rt : Rat) (pc mw : Nat)
    (hpc : 1 ≤ pc) :
    default_total_timeout rt none pc mw
      = .ok (per_call_timeout rt none *
          (((pc + min pc (max 1 mw) - 1) / min pc (max 1 mw) : Nat) : Rat)
          * (3 / 2)) ∧
    ∀ q : Rat, default_total_timeout rt (some q) pc mw
      = .ok ((q + 5) *
          (((pc + min pc (max 1 mw) - 1) / min pc (max 1 mw) : Nat) : Rat)
          * (3 / 2)) := by
  have hpar : ¬ min pc (max 1 mw) = 0 := by omega
  constructor
  · simp only [default_total_timeout, per_call_timeout, Option.getD]
    rw [if_neg hpar]
  · intro q
    simp only [default_total_timeout, Option.getD]
    rw [if_neg hpar]

/-- Witness for the amended C7 at a concrete input: 3 pages, 2 workers,
`read_timeout = 60`: the default total timeout is
`65 * ceil(3/2) * 1.5 = 195`, and with `request_timeout = 10` it is
`15 * 2 * 1.5 = 45`. -/
theorem default_total_timeout_formula_witness :
    (1 : Nat) ≤ 3 ∧
    default_total_timeout 60 none 3 2
      = .ok (per_call_timeout 60 none *
          (((3 + min 3 (max 1 2) - 1) / min 3 (max 1 2) : Nat) : Rat)
          * (3 / 2)) ∧
    default_total_timeout 60 (some 10) 3 2
      = .ok ((10 + 5) *
          (((3 + min 3 (max 1 2) - 1) / min 3 (max 1 2) : Nat) : Rat)
          * (3 / 2)) :=
  ⟨by decide,
    (default_total_timeout_formula 60 3 2 (by decide)).1,
    (default_total_timeout_formula 60 3 2 (by decide)).2 10⟩

/-- C8: on a batch whose selected-page payload list is empty, the code
reaches the `YomiTokuInvokeError("No page results were returned.")` guard
only when `total_timeout` was supplied; with the default `total_timeout`
(the common case) it instead raises `ZeroDivisionError` while computing
the default total timeout, because the concurrency limit
`min(0, max(1, max_workers)) = 0` makes `len(page_index) / par` divide by
zero — contradicting the documented behavior of failing with the
zero-results error. -/
theorem empty_batch_behavior :
    analyze_collect [] 60 4 none none [] = .error .zeroDivision ∧
    analyze_collect [] 60 4 none (some 100) [] = .error .noResults :=
  ⟨rfl, rfl⟩

theorem hget_hextend_self (h : Heap) (a : Nat) (xs : List PVal)
    (ha : a < h.length) : hget (hextend h a xs) a = hget h a ++ xs := by
  unfold hget hextend
  rw [List.getD_eq_getElem?_getD, List.getElem?_set_eq_of_lt _ ha]
  rfl

theorem hget_hextend_ne (h : Heap) (a b : Nat) (xs : List PVal)
    (hne : b ≠ a) : hget (hextend h a xs) b = hget h b := by
  unfold hget hextend
  rw [List.getD_eq_getElem?_getD, List.getD_eq_getElem?_getD,
    List.getElem?_set_ne (by omega)]

theorem length_hextend (h : Heap) (a : Nat) (xs : List PVal) :
    (hextend h a xs).length = h.length :=
  List.length_set h a _

theorem merge_step_of_list (a : Nat) (hh : Heap) (r : InvokeResult)
    (a2 : Nat) (hr : dget r.raw_dict resultKey = some (.listRef a2)) :
    merge_step a hh r = hextend hh a (hget hh a2) := by
  unfold merge_step
  rw [hr]

theorem merge_step_of_not_list (a : Nat) (hh : Heap) (r : InvokeResult)
    (hr : ∀ a2, dget r.raw_dict resultKey ≠ some (.listRef a2)) :
    merge_step a hh r = hh := by
  unfold merge_step
  cases h2 : dget r.raw_dict resultKey with
  | none => rfl
  | some v =>
    cases v with
    | listRef a2 => exact absurd h2 (hr a2)
    | atom s => rfl

theorem pageItems_of_list (h : Heap) (r : InvokeResult) (a2 : Nat)
    (hr : dget r.raw_dict resultKey = some (.listRef a2)) :
    pageItems h r = hget h a2 := by
  unfold pageItems
  rw [hr]

theorem pageItems_of_not_list (h : Heap) (r : InvokeResult)
    (hr : ∀ a2, dget r.raw_dict resultKey ≠ some (.listRef a2)) :
    pageItems h r = [] := by
  unfold pageItems
  cases h2 : dget r.raw_dict resultKey with
  | none => rfl
  | some v =>
    cases v with
    | listRef a2 => exact absurd h2 (hr a2)
    | atom s => rfl

theorem merge_foldl_spec (a : Nat) :
    ∀ (rest : List InvokeResult) (h : Heap), a < h.length →
      (∀ r ∈ rest, ∀ a2,
        dget r.raw_dict resultKey = some (.listRef a2) → a2 ≠ a) →
      hget (rest.foldl (merge_step a) h) a
        = hget h a ++ (rest.map (pageItems h)).flatten ∧
      (∀ b, b ≠ a → hget (rest.foldl (merge_step a) h) b = hget h b) ∧
      (rest.foldl (merge_step a) h).length = h.length := by
  intro rest
  induction rest with
  | nil =>
    intro h _ _
    simp
  | cons r rest ih =>
    intro h ha hd
    have hdrest : ∀ r' ∈ rest, ∀ a2,
        dget r'.raw_dict resultKey = some (.listRef a2) → a2 ≠ a :=
      fun r' hr' => hd r' (List.mem_cons_of_mem _ hr')
    by_cases hlist : ∃ a2, dget r.raw_dict resultKey = some (.listRef a2)
    · obtain ⟨a2, hr⟩ := hlist
      have ha2 : a2 ≠ a := hd r (List.mem_cons_self _ _) a2 hr
      have hstep : merge_step a h r = hextend h a (hget h a2) :=
        merge_step_of_list a h r a2 hr
      have hlen : (hextend h a (hget h a2)).length = h.length :=
        length_hextend h a _
      have hgetA : hget (hextend h a (hget h a2)) a = hget h a ++ hget h a2 :=
        hget_hextend_self h a _ ha
      have hgetB : ∀ b, b ≠ a →
          hget (hextend h a (hget h a2)) b = hget h b :=
        fun b hb => hget_hextend_ne h a b _ hb
      have hmap : rest.map (pageItems (hextend h a (hget h a2)))
          = rest.map (pageItems h) := by
        apply List.map_congr_left
        intro r' hr'
        by_cases hl' : ∃ a2', dget r'.raw_dict resultKey = some (.listRef a2')
        · obtain ⟨a2', hr2⟩ := hl'
          rw [pageItems_of_list _ r' a2' hr2, pageItems_of_list _ r' a2' hr2]
          exact hgetB a2' (hdrest r' hr' a2' hr2)
        · push_neg at hl'
          rw [pageItems_of_not_list _ r' hl', pageItems_of_not_list _ r' hl']
      have hih := ih (hextend h a (hget h a2)) (by rw [hlen]; exact ha) hdrest
      refine ⟨?_, ?_, ?_⟩
      · rw [List.foldl_cons, hstep, hih.1, hgetA, hmap]
        simp [pageItems_of_list h r a2 hr, List.append_assoc]
      · intro b hb
        rw [List.foldl_cons, hstep, hih.2.1 b hb, hgetB b hb]
      · rw [List.foldl_cons, hstep, hih.2.2, hlen]
    · push_neg at hlist
      have hstep : merge_step a h r = h := merge_step_of_not_list a h r hlist
      have hih := ih h ha hdrest
      refine ⟨?_, ?_, by rw [List.foldl_cons, hstep, hih.2.2]⟩
      · rw [List.foldl_cons, hstep, hih.1]
        simp [pageItems_of_not_list h r hlist]
      · intro b hb
        rw [List.foldl_cons, hstep, hih.2.1 b hb]

theorem merge_results_cons_ok (h : Heap) (r0 : InvokeResult)
    (rest : List InvokeResult) (a : Nat)
    (ha : dget r0.raw_dict resultKey = some (.listRef a)) :
    merge_results h (r0 :: rest)
      = .ok (rest.foldl (merge_step a) h, r0.raw_dict) := by
  simp [merge_results, ha]

theorem merge_results_cons_passthrough (h : Heap) (r0 : InvokeResult)
    (rest : List InvokeResult)
    (ha : ∀ a, dget r0.raw_dict resultKey ≠ some (.listRef a)) :
    merge_results h (r0 :: rest) = .ok (h, r0.raw_dict) := by
  cases h2 : dget r0.raw_dict resultKey with
  | none => simp [merge_results, h2]
  | some v =>
    cases v with
    | listRef a => exact absurd h2 (ha a)
    | atom s => simp [merge_results, h2]

/-- C5: the gathered results are sorted ascending by page index before
merging; when the first (lowest-index) result's `"result"` field is a
list (at heap address `a`, distinct from the later pages' list objects),
the merge returns the first result's payload with that list extended by
every subsequent page's `"result"` items in ascending index order, so
its length is the sum of the per-page list lengths and items keep their
per-page relative order; when the first result's `"result"` field is not
a list, the first payload is returned unchanged (and the heap is
untouched). -/
theorem merge_concatenates_sorted (h : Heap) (rs : List InvokeResult)
    (r0 : InvokeResult) (rest : List InvokeResult)
    (hs : sortByIndex rs = r0 :: rest) :
    List.Sorted idxLe (sortByIndex rs) ∧
    (∀ a, dget r0.raw_dict resultKey = some (.listRef a) → a < h.length →
      (∀ r ∈ rest, ∀ a2,
        dget r.raw_dict resultKey = some (.listRef a2) → a2 ≠ a) →
      ∃ h', sort_and_merge h rs = .ok (h', r0.raw_dict) ∧
        hget h' a = hget h a ++ (rest.map (pageItems h)).flatten ∧
        (hget h' a).length
          = (hget h a).length
            + (rest.map (fun r => (pageItems h r).length)).sum) ∧
    ((∀ a, dget r0.raw_dict resultKey ≠ some (.listRef a)) →
      sort_and_merge h rs = .ok (h, r0.raw_dict)) := by
  refine ⟨List.sorted_insertionSort idxLe rs, ?_, ?_⟩
  · intro a ha hlt hd
    refine ⟨rest.foldl (merge_step a) h, ?_, ?_, ?_⟩
    · show merge_results h (sortByIndex rs) = _
      rw [hs]
      exact merge_results_cons_ok h r0 rest a ha
    · exact (merge_foldl_spec a rest h hlt hd).1
    · rw [(merge_foldl_spec a rest h hlt hd).1]
      simp only [List.length_append, List.length_flatten, List.map_map]
      rfl
  · intro ha
    show merge_results h (sortByIndex rs) = _
    rw [hs]
    exact merge_results_cons_passthrough h r0 rest ha

/-- Witness for C5 at a concrete input: two pages given out of order
(indices 1 then 0), with list objects at addresses 1 and 0. -/
theorem merge_concatenates_sorted_witness :
    sortByIndex [⟨1, [("result", PVal.listRef 1)]⟩,
        ⟨0, [("result", PVal.listRef 0)]⟩]
      = ⟨0, [("result", PVal.listRef 0)]⟩
          :: [⟨1, [("result", PVal.listRef 1)]⟩] ∧
    (∃ h', sort_and_merge [[PVal.atom "x"], [PVal.atom "y", PVal.atom "z"]]
          [⟨1, [("result", PVal.listRef 1)]⟩, ⟨0, [("result", PVal.listRef 0)]⟩]
        = .ok (h', [("result", PVal.listRef 0)]) ∧
      hget h' 0 = hget [[PVal.atom "x"], [PVal.atom "y", PVal.atom "z"]] 0
          ++ (([⟨1, [("result", PVal.listRef 1)]⟩] : List InvokeResult).map
              (pageItems [[PVal.atom "x"], [PVal.atom "y", PVal.atom "z"]])).flatten ∧
      (hget h' 0).length
        = (hget [[PVal.atom "x"], [PVal.atom "y", PVal.atom "z"]] 0).length
          + (([⟨1, [("result", PVal.listRef 1)]⟩] : List InvokeResult).map
              (fun r =>
                (pageItems [[PVal.atom "x"], [PVal.atom "y", PVal.atom "z"]] r).length)).sum) := by
  have h := merge_concatenates_sorted
    [[PVal.atom "x"], [PVal.atom "y", PVal.atom "z"]]
    [⟨1, [("result", PVal.listRef 1)]⟩, ⟨0, [("result", PVal.listRef 0)]⟩]
    ⟨0, [("result", PVal.listRef 0)]⟩ [⟨1, [("result", PVal.listRef 1)]⟩]
    (by decide)
  refine ⟨by decide, h.2.1 0 rfl (by decide) ?_⟩
  intro r hr a2 h2
  simp only [List.mem_singleton] at hr
  subst hr
  have h3 : (some (PVal.listRef 1) : Option PVal) = some (.listRef a2) := h2
  cases h3
  decide

/-- C9: the merge extends the first input result's own `"result"` list
object in place: the returned base dict is the first input's payload,
whose `"result"` field still references the same address `a`, and after
the merge the heap cell at `a` — the very list inside the first input —
holds its old items followed by every item appended from the subsequent
pages; in particular when anything was appended, the first input's list
has changed. -/
theorem merge_mutates_first_input (h : Heap) (r0 : InvokeResult)
    (rest : List InvokeResult) (a : Nat)
    (ha : dget r0.raw_dict resultKey = some (.listRef a))
    (hlt : a < h.length)
    (hd : ∀ r ∈ rest, ∀ a2,
      dget r.raw_dict resultKey = some (.listRef a2) → a2 ≠ a) :
    ∃ h', merge_results h (r0 :: rest) = .ok (h', r0.raw_dict) ∧
      dget r0.raw_dict resultKey = some (.listRef a) ∧
      hget h' a = hget h a ++ (rest.map (pageItems h)).flatten ∧
      ((rest.map (pageItems h)).flatten ≠ [] → hget h' a ≠ hget h a) := by
  refine ⟨rest.foldl (merge_step a) h, merge_results_cons_ok h r0 rest a ha,
    ha, (merge_foldl_spec a rest h hlt hd).1, ?_⟩
  intro hne
  rw [(merge_foldl_spec a rest h hlt hd).1]
  intro heq
  have hlen := congrArg List.length heq
  simp only [List.length_append] at hlen
  exact hne (List.eq_nil_of_length_eq_zero (by omega))

/-- Witness for C9 at a concrete input: two pages, the second
contributing one item; after the merge, the first page's list object at
address 0 has grown. -/
theorem merge_mutates_first_input_witness :
    (dget ([("result", PVal.listRef 0)] : PDict) resultKey
        = some (PVal.listRef 0) ∧
      (0 : Nat) < ([[PVal.atom "x"], [PVal.atom "y"]] : Heap).length) ∧
    (∃ h', merge_results [[PVal.atom "x"], [PVal.atom "y"]]
          [⟨0, [("result", PVal.listRef 0)]⟩, ⟨1, [("result", PVal.listRef 1)]⟩]
        = .ok (h', [("result", PVal.listRef 0)]) ∧
      dget ([("result", PVal.listRef 0)] : PDict) resultKey
        = some (PVal.listRef 0) ∧
      hget h' 0 = hget [[PVal.atom "x"], [PVal.atom "y"]] 0
          ++ (([⟨1, [("result", PVal.listRef 1)]⟩] : List InvokeResult).map
              (pageItems [[PVal.atom "x"], [PVal.atom "y"]])).flatten ∧
      ((([⟨1, [("result", PVal.listRef 1)]⟩] : List InvokeResult).map
            (pageItems [[PVal.atom "x"], [PVal.atom "y"]])).flatten ≠ [] →
        hget h' 0 ≠ hget [[PVal.atom "x"], [PVal.atom "y"]] 0)) := by
  refine ⟨⟨by decide, by decide⟩, ?_⟩
  refine merge_mutates_first_input [[PVal.atom "x"], [PVal.atom "y"]]
    ⟨0, [("result", PVal.listRef 0)]⟩ [⟨1, [("result", PVal.listRef 1)]⟩] 0
    (by decide) (by decide) ?_
  intro r hr a2 h2
  simp only [List.mem_singleton] at hr
  subst hr
  have h3 : (some (PVal.listRef 1) : Option PVal) = some (.listRef a2) := h2
  cases h3
  decide

theorem hasListResult_false_not_list (r : InvokeResult)
    (hr : hasListResult r = false) :
    ∀ a2, dget r.raw_dict resultKey ≠ some (.listRef a2) := by
  intro a2 h2
  unfold hasListResult at hr
  rw [h2] at hr
  exact Bool.noConfusion hr

theorem foldl_merge_step_filter (a : Nat) :
    ∀ (rest : List InvokeResult) (h : Heap),
      (rest.filter hasListResult).foldl (merge_step a) h
        = rest.foldl (merge_step a) h := by
  intro rest
  induction rest with
  | nil => intro h; rfl
  | cons r rest ih =>
    intro h
    by_cases hr : hasListResult r
    · rw [List.filter_cons_of_pos hr, List.foldl_cons, List.foldl_cons, ih]
    · have hfalse : hasListResult r = false := by simpa using hr
      rw [List.filter_cons_of_neg (by simpa using hr), List.foldl_cons, ih,
        merge_step_of_not_list a h r (hasListResult_false_not_list r hfalse)]

/-- C10: on every non-empty input, `_merge_results` returns normally
(never raises), and every result after the first whose `"result"` field
is missing or not a list contributes nothing: dropping all such results
leaves the merge's output unchanged. -/
theorem merge_skips_malformed (h : Heap) (r0 : InvokeResult)
    (rest : List InvokeResult) :
    (∃ out, merge_results h (r0 :: rest) = .ok out) ∧
    merge_results h (r0 :: rest)
      = merge_results h (r0 :: rest.filter hasListResult) := by
  by_cases hl : ∃ a, dget r0.raw_dict resultKey = some (.listRef a)
  · obtain ⟨a, ha⟩ := hl
    rw [merge_results_cons_ok h r0 rest a ha,
      merge_results_cons_ok h r0 _ a ha]
    exact ⟨⟨_, rfl⟩, by rw [foldl_merge_step_filter]⟩
  · push_neg at hl
    rw [merge_results_cons_passthrough h r0 rest hl,
      merge_results_cons_passthrough h r0 _ hl]
    exact ⟨⟨_, rfl⟩, rfl⟩
